import Mathlib

/-!
Shallow embedding of the meowcoin stratum proxy (meowcoin-proxy-stratum.py).

Byte strings are modelled as `List Nat` with each entry intended below 256.
External hash libraries (`hashlib.sha256`, `sha3.keccak_256`) and the base58
library are not part of the repository; functions that call them are
parameterized by the corresponding hash / decode function.  Python exceptions
are modelled with `Option` / explicit result types.
-/

namespace MeowcoinProxy

abbrev Bytes := List Nat

/-- Python `bytes(32)`: the 32-byte zero block. -/
def zeros32 : Bytes := List.replicate 32 0

/-- KAWPOW_EPOCH_LENGTH = 7500 (line 21 of the source). -/
def KAWPOW_EPOCH_LENGTH : Nat := 7500

/-- Little-endian byte encoding of `n` on `k` bytes, modelling
`n.to_bytes(k, 'little')` for `n` that fits. -/
def leBytes : Nat → Nat → Bytes
  | 0, _ => []
  | k + 1, n => n % 256 :: leBytes k (n / 256)

/-- Big-endian byte encoding of `n` on `k` bytes, modelling
`n.to_bytes(k, 'big')` for `n` that fits. -/
def beBytes : Nat → Nat → Bytes
  | 0, _ => []
  | k + 1, n => beBytes k (n / 256) ++ [n % 256]

/-- Python `n.to_bytes(k, 'big')`: raises `OverflowError` (here `none`)
when `n` does not fit in `k` bytes. -/
def to_bytes_be (k n : Nat) : Option Bytes :=
  if n < 256 ^ k then some (beBytes k n) else none

/-- Lowercase hex rendering of one byte, as in Python `bytes.hex()`. -/
def byteToHex (b : Nat) : List Char :=
  [Nat.digitChar (b / 16), Nat.digitChar (b % 16)]

/-- Python `bytes.hex()`. -/
def bytesToHex (l : Bytes) : String :=
  String.mk ((l.map byteToHex).flatten)

/-- Python `hex(n)[2:]` for a nonnegative `n`: lowercase hex digits,
no `0x` prefix, no padding (`hex(0)[2:] = "0"`). -/
def natToHex (n : Nat) : String :=
  String.mk (Nat.toDigits 16 n)

/-- Value of a single hex digit character, both cases accepted
(as in Python `bytes.fromhex`); `none` for a non-hex character. -/
def hexCharVal (c : Char) : Option Nat :=
  if 48 ≤ c.toNat ∧ c.toNat ≤ 57 then some (c.toNat - 48)
  else if 97 ≤ c.toNat ∧ c.toNat ≤ 102 then some (c.toNat - 87)
  else if 65 ≤ c.toNat ∧ c.toNat ≤ 70 then some (c.toNat - 55)
  else none

/-- Python `bytes.fromhex` on a character list: pairs of hex digits; a
malformed string raises `ValueError`, modelled as `none`. -/
def hexToBytes : List Char → Option Bytes
  | [] => some []
  | [_] => none
  | a :: b :: rest =>
    match hexCharVal a, hexCharVal b, hexToBytes rest with
    | some x, some y, some r => some ((16 * x + y) :: r)
    | _, _, _ => none

/-- var_int (lines 24-36): Bitcoin CompactSize encoding. -/
def var_int (i : Nat) : Bytes :=
  if i < 0xfd then [i]
  else if i ≤ 0xffff then 0xfd :: leBytes 2 i
  else if i ≤ 0xffffffff then 0xfe :: leBytes 4 i
  else 0xff :: leBytes 8 i

/-- prune0x (lines 55-56): drop a leading `0x`
(`s[2:] if s.startswith('0x') else s`). -/
def prune0x (s : String) : String :=
  match s.data with
  | '0' :: 'x' :: rest => String.mk rest
  | _ => s

/-- dsha256 (lines 58-59), parameterized by the external `hashlib.sha256`. -/
def dsha256 (sha : Bytes → Bytes) (b : Bytes) : Bytes :=
  sha (sha b)

/-- Python `zip(*(iter(txids),)*2)` followed by `dsha256(l+r)` on each
pair (line 69): hash adjacent pairs, dropping an unpaired trailing
element. -/
def pairUp (d : Bytes → Bytes) : List Bytes → List Bytes
  | [] => []
  | [_] => []
  | a :: b :: rest => d (a ++ b) :: pairUp d rest

theorem pairUp_length (d : Bytes → Bytes) :
    ∀ l : List Bytes, (pairUp d l).length = l.length / 2
  | [] => rfl
  | [_] => by simp [pairUp]
  | _ :: _ :: rest => by
    simp only [pairUp, List.length_cons, pairUp_length d rest]
    omega

/-- The `while len(txids) > 1` loop of merkle_from_txids (lines 67-69):
append a copy of the last element, then pair adjacent elements. -/
def merkleLoop (sha : Bytes → Bytes) (txids : List Bytes) : List Bytes :=
  if 1 < txids.length then
    merkleLoop sha (pairUp (dsha256 sha) (txids ++ [txids.getLastD []]))
  else txids
termination_by txids.length
decreasing_by
  simp only [pairUp_length, List.length_append, List.length_cons, List.length_nil]
  omega

/-- merkle_from_txids (lines 61-70), parameterized by `hashlib.sha256`. -/
def merkle_from_txids (sha : Bytes → Bytes) (txids : List Bytes) : Bytes :=
  if txids = [] then dsha256 sha []
  else if txids.length = 1 then txids.headI
  else (merkleLoop sha txids).headI

/-- Definition following the spec text for the Merkle fold, to be compared
with `merkle_from_txids`: if empty return `dsha256("")`; if one element
return it; otherwise repeatedly append a copy of the last element when the
count is odd, then pair adjacent elements with `dsha256(left ++ right)`,
until one element remains. -/
def merkleFoldSpec (sha : Bytes → Bytes) (txids : List Bytes) : Bytes :=
  if txids = [] then dsha256 sha []
  else if txids.length = 1 then txids.headI
  else merkleFoldSpec sha
    (if txids.length % 2 = 1 then pairUp (dsha256 sha) (txids ++ [txids.getLastD []])
     else pairUp (dsha256 sha) txids)
termination_by txids.length
decreasing_by
  have h0 : txids ≠ [] := by assumption
  have h2 : 0 < txids.length := List.length_pos.mpr h0
  split <;>
    simp only [pairUp_length, List.length_append, List.length_cons, List.length_nil] <;>
    omega

/-- Template state (class TemplateState, lines 72-104): the fields the
verified operations read or write.  Sessions are identified by numeric
ids. -/
structure TState where
  height : Int := -1
  pub_h160 : Option Bytes := none
  seedHash : Option Bytes := none
  header : Bytes := []
  coinbase_tx : Bytes := []
  externalTxs : List String := []
  job_counter : Nat := 0
  bits_counter : Nat := 0
deriving DecidableEq

/-- TemplateState.build_block (lines 113-114). -/
def TState.build_block (s : TState) (nonce mixHash : String) : String :=
  bytesToHex s.header ++ nonce ++ mixHash
    ++ bytesToHex (var_int (s.externalTxs.length + 1))
    ++ bytesToHex s.coinbase_tx
    ++ String.join s.externalTxs

/-- Python truthiness of an optional byte string (`if not state.seedHash`,
`if not self._state.pub_h160`): `None` and empty bytes are falsy. -/
def bytesFalsy : Option Bytes → Bool
  | none => true
  | some b => b.isEmpty

/-- The height / seed-hash section of stateUpdater (lines 350-396),
parameterized by the external `sha3.keccak_256` digest.  Models the
transition of `state.height` and `state.seedHash` for a template response
carrying `height_int`; all other work of the function (coinbase, merkle,
header, notifications) is independent of this section. -/
def stateUpdaterSeedHash (keccak : Bytes → Bytes) (s : TState) (height_int : Nat) :
    TState :=
  if s.height = -1 ∨ s.height ≠ (height_int : Int) then
    let seedNew :=
      if s.height = -1 ∨ (height_int : Int) > s.height then
        if bytesFalsy s.seedHash then
          some (keccak^[height_int / KAWPOW_EPOCH_LENGTH] zeros32)
        else if s.height % (KAWPOW_EPOCH_LENGTH : Int) = 0 then
          s.seedHash.map keccak
        else s.seedHash
      else if s.height > (height_int : Int) then
        if s.height % (KAWPOW_EPOCH_LENGTH : Int) - (s.height - (height_int : Int)) < 0 then
          some (keccak^[height_int / KAWPOW_EPOCH_LENGTH] zeros32)
        else s.seedHash
      else s.seedHash
    { s with seedHash := seedNew, height := (height_int : Int) }
  else s

/-- Historical-state store (`historical_states = [list(), dict()]`,
line 549): a sequence of job ids plus a map from id to snapshot, the map
modelled as an association list. -/
abbrev HistQueue := List String × List (String × TState)

/-- Python `del queue[1][id]`: remove a key from the map. -/
def eraseKey (x : String) (m : List (String × TState)) : List (String × TState) :=
  m.filter (fun p => p.1 != x)

/-- The `while len(queue[0]) > drop_after` loop of add_old_state_to_queue
(lines 123-124): pop the front id and delete its snapshot. -/
def evictOld (drop_after : Nat) :
    List String → List (String × TState) → List String × List (String × TState)
  | [], m => ([], m)
  | x :: rest, m =>
    if drop_after < (x :: rest).length then evictOld drop_after rest (eraseKey x m)
    else (x :: rest, m)

/-- add_old_state_to_queue (lines 117-124). -/
def add_old_state_to_queue (queue : HistQueue) (state : TState) (drop_after : Nat) :
    HistQueue :=
  let id := natToHex state.job_counter
  if (queue.2.lookup id).isSome then queue
  else evictOld drop_after (queue.1 ++ [id]) (queue.2 ++ [(id, state)])

/-- lookup_old_state (lines 126-127). -/
def lookup_old_state (queue : HistQueue) (id : String) : Option TState :=
  queue.2.lookup id

/-- Result of handle_subscribe: the updated `new_sessions` set and
`bits_counter`, and the value returned to the miner.  `response = none`
models the `OverflowError` raised by `to_bytes(2, 'big')`; otherwise the
returned list `[None, extranonce_hex]` is the pair (first component always
`none` for the JSON `null`). -/
structure SubscribeResult where
  new_sessions : List Nat
  bits_counter : Nat
  response : Option (Option Bytes × String)
deriving DecidableEq

/-- handle_subscribe (lines 174-179).  Sessions are numeric ids; the
session sets are duplicate-free lists. -/
def handle_subscribe (sid : Nat) (all_sessions new_sessions : List Nat)
    (bits_counter : Nat) : SubscribeResult :=
  let ns := if sid ∈ all_sessions then new_sessions else new_sessions.insert sid
  let c := bits_counter + 1
  { new_sessions := ns
    bits_counter := c
    response := (to_bytes_be 2 c).map (fun b => (none, bytesToHex b)) }

/-- Outcome of handle_authorize: `ok pub ret` is a normal return carrying
the (possibly updated) `pub_h160` and the returned value; `rpcError` is a
raised `RPCError(code, msg)`; `exn` is an uncaught exception
(the base58 `ValueError` on a bad checksum, or the `IndexError` on an
empty decode). -/
inductive AuthResult where
  | ok (pub : Option Bytes) (returned : Bool)
  | rpcError (code : Nat) (msg : String)
  | exn
deriving DecidableEq

/-- handle_authorize (lines 181-189), parameterized by the external
`base58.b58decode_check` (`none` models its `ValueError`). -/
def handle_authorize (testnet : Bool) (b58decode : String → Option Bytes)
    (pub_h160 : Option Bytes) (username _password : String) : AuthResult :=
  let address := (username.splitOn ".").headI
  match b58decode address with
  | none => .exn
  | some [] => .exn
  | some (v :: payload) =>
    if v ≠ (if testnet then 109 else 50) then
      .rpcError 20 ("Invalid address " ++ address)
    else
      .ok (if bytesFalsy pub_h160 then some payload else pub_h160) true

/-- Python `bytes.fromhex(prune0x(s))[::-1].hex()` (lines 208-209):
`none` models the `ValueError` of `fromhex` on a malformed string. -/
def revHex (s : String) : Option String :=
  (hexToBytes (prune0x s).data).map (fun b => bytesToHex b.reverse)

/-- handle_submit (lines 191-253): the pure part.  Selects the template
state by job id, normalizes the nonce and mix hash, builds the block hex,
and returns `True` to the miner.  The node verdict `_nodeResult`
(the `result` field of the `submitblock` reply) only drives logging and
does not affect the returned value; `none` here models a rejected or
malformed hex input (uncaught `ValueError`). -/
def handle_submit (live : TState) (old_states : HistQueue)
    (job_id nonce_hex mixhash_hex : String) (_nodeResult : Option String) :
    Option (String × Bool) :=
  let state :=
    if job_id ≠ natToHex live.job_counter then
      (lookup_old_state old_states job_id).getD live
    else live
  match revHex nonce_hex, revHex mixhash_hex with
  | some n, some m => some (state.build_block n m, true)
  | _, _ => none

/-- C1: On the refresher's first initialization of the seed hash (seed not
yet set, and the gate `state.height == -1 or height_int > state.height`
holds), the seed becomes Keccak-256 iterated `height // 7500` times on the
32-byte zero block; height 0 gives 32 zero bytes and height 15000 gives
Keccak-256 applied twice.  After one refresher call that advances a state
sitting at height 7500 with the epoch-0 seed (32 zero bytes) to a larger
height, the seed equals Keccak-256 of 32 zero bytes. -/
theorem seedhash_first_init_and_epoch_advance (keccak : Bytes → Bytes)
    (s : TState) (h : Nat) :
    ((s.height = -1 ∨ s.height < (h : Int)) → s.seedHash = none →
      (stateUpdaterSeedHash keccak s h).seedHash
        = some (keccak^[h / KAWPOW_EPOCH_LENGTH] zeros32))
    ∧ (s.height = -1 → s.seedHash = none → h = 0 →
      (stateUpdaterSeedHash keccak s h).seedHash = some zeros32)
    ∧ (s.height = -1 → s.seedHash = none → h = 15000 →
      (stateUpdaterSeedHash keccak s h).seedHash
        = some (keccak (keccak zeros32)))
    ∧ (s.height = 7500 → s.seedHash = some zeros32 → 7500 < h →
      (stateUpdaterSeedHash keccak s h).seedHash = some (keccak zeros32)) := by
  have init : (s.height = -1 ∨ s.height < (h : Int)) → s.seedHash = none →
      (stateUpdaterSeedHash keccak s h).seedHash
        = some (keccak^[h / KAWPOW_EPOCH_LENGTH] zeros32) := by
    intro hc hs
    have hgate : s.height = -1 ∨ ¬s.height = (h : Int) := by
      rcases hc with h1 | h1
      · exact Or.inl h1
      · exact Or.inr (by omega)
    have hfwd : s.height = -1 ∨ (h : Int) > s.height := by
      rcases hc with h1 | h1
      · exact Or.inl h1
      · exact Or.inr (by omega)
    simp [stateUpdaterSeedHash, hgate, hfwd, hs, bytesFalsy]
  refine ⟨init, ?_, ?_, ?_⟩
  · intro h1 h2 h3
    subst h3
    simpa using init (Or.inl h1) h2
  · intro h1 h2 h3
    subst h3
    have := init (Or.inl h1) h2
    rw [this]
    norm_num [KAWPOW_EPOCH_LENGTH, Function.iterate_succ_apply]
  · intro h1 h2 h3
    have hgate : s.height = -1 ∨ ¬s.height = (h : Int) := Or.inr (by omega)
    have hfwd : s.height = -1 ∨ (h : Int) > s.height := Or.inr (by omega)
    have hmod : s.height % (KAWPOW_EPOCH_LENGTH : Int) = 0 := by
      rw [h1]; decide
    simp [stateUpdaterSeedHash, hgate, hfwd, h2, bytesFalsy, zeros32, hmod]

/-- Witness for C1: a concrete first initialization at height 15000
applies Keccak twice to the zero block, and a concrete epoch advance from
height 7500 to 7501 applies Keccak once to the zero block. -/
theorem seedhash_first_init_and_epoch_advance_check :
    (stateUpdaterSeedHash (fun l => 9 :: l) { height := -1 } 15000).seedHash
      = some (9 :: 9 :: zeros32)
    ∧ (stateUpdaterSeedHash (fun l => 9 :: l)
        { height := 7500, seedHash := some zeros32 } 7501).seedHash
      = some (9 :: zeros32) :=
  ⟨(seedhash_first_init_and_epoch_advance (fun l => 9 :: l)
      { height := -1 } 15000).2.2.1 rfl rfl rfl,
   (seedhash_first_init_and_epoch_advance (fun l => 9 :: l)
      { height := 7500, seedHash := some zeros32 } 7501).2.2.2 rfl rfl
      (by norm_num)⟩

/-- C2: On a reorganization (response height strictly below the state
height) the refresher recomputes the seed from the zero block, iterating
Keccak-256 `new_height // 7500` times, exactly when
`state.height % 7500 - (state.height - new_height) < 0`, and otherwise
leaves the seed unchanged; height 7510 to 7505 keeps the seed, height
7502 to 7498 resets it to 32 zero bytes. -/
theorem seedhash_reorg_rule (keccak : Bytes → Bytes) (s : TState) (h : Nat)
    (hlt : (h : Int) < s.height) :
    (s.height % (KAWPOW_EPOCH_LENGTH : Int) - (s.height - (h : Int)) < 0 →
      (stateUpdaterSeedHash keccak s h).seedHash
        = some (keccak^[h / KAWPOW_EPOCH_LENGTH] zeros32))
    ∧ (0 ≤ s.height % (KAWPOW_EPOCH_LENGTH : Int) - (s.height - (h : Int)) →
      (stateUpdaterSeedHash keccak s h).seedHash = s.seedHash)
    ∧ (s.height = 7510 → h = 7505 →
      (stateUpdaterSeedHash keccak s h).seedHash = s.seedHash)
    ∧ (s.height = 7502 → h = 7498 →
      (stateUpdaterSeedHash keccak s h).seedHash = some zeros32) := by
  have hgate : s.height = -1 ∨ ¬s.height = (h : Int) := Or.inr (by omega)
  have hnfwd : ¬(s.height = -1 ∨ (h : Int) > s.height) := by
    push_neg
    constructor
    · omega
    · omega
  have hback : s.height > (h : Int) := hlt
  have recompute : s.height % (KAWPOW_EPOCH_LENGTH : Int) - (s.height - (h : Int)) < 0 →
      (stateUpdaterSeedHash keccak s h).seedHash
        = some (keccak^[h / KAWPOW_EPOCH_LENGTH] zeros32) := by
    intro hcross
    simp [stateUpdaterSeedHash, hgate, hnfwd, hback, hcross]
  have keep : 0 ≤ s.height % (KAWPOW_EPOCH_LENGTH : Int) - (s.height - (h : Int)) →
      (stateUpdaterSeedHash keccak s h).seedHash = s.seedHash := by
    intro hin
    simp [stateUpdaterSeedHash, hgate, hnfwd, hback]
    omega
  refine ⟨recompute, keep, ?_, ?_⟩
  · intro h1 h2
    exact keep (by rw [h1, h2]; decide)
  · intro h1 h2
    have h3 := recompute (by rw [h1, h2]; decide)
    rw [h3, h2]
    rfl

/-- Witness for C2: with a concrete Keccak stand-in, the reorg 7510 to
7505 keeps the stored seed and the reorg 7502 to 7498 resets the seed to
the 32-byte zero block. -/
theorem seedhash_reorg_rule_check :
    (stateUpdaterSeedHash (fun l => 9 :: l)
        { height := 7510, seedHash := some [5] } 7505).seedHash = some [5]
    ∧ (stateUpdaterSeedHash (fun l => 9 :: l)
        { height := 7502, seedHash := some [5] } 7498).seedHash
      = some zeros32 :=
  ⟨(seedhash_reorg_rule (fun l => 9 :: l)
      { height := 7510, seedHash := some [5] } 7505 (by norm_num)).2.2.1 rfl rfl,
   (seedhash_reorg_rule (fun l => 9 :: l)
      { height := 7502, seedHash := some [5] } 7498 (by norm_num)).2.2.2 rfl rfl⟩

theorem pairUp_append_even (d : Bytes → Bytes) (x : Bytes) :
    ∀ l : List Bytes, l.length % 2 = 0 → pairUp d (l ++ [x]) = pairUp d l
  | [], _ => rfl
  | [_], h => by simp at h
  | a :: b :: rest, h => by
    have hr : rest.length % 2 = 0 := by
      simp only [List.length_cons] at h
      omega
    simp only [List.cons_append, pairUp]
    rw [show rest.append [x] = rest ++ [x] from rfl,
      pairUp_append_even d x rest hr]

theorem merkleLoop_headI_eq_spec (sha : Bytes → Bytes) :
    ∀ n (l : List Bytes), l.length ≤ n → l ≠ [] →
      (merkleLoop sha l).headI = merkleFoldSpec sha l := by
  intro n
  induction n with
  | zero =>
    intro l hle hne
    exact absurd (List.length_eq_zero.mp (Nat.le_zero.mp hle)) hne
  | succ n ih =>
    intro l hle hne
    by_cases hlen : 1 < l.length
    · have hne1 : ¬l.length = 1 := by omega
      rw [merkleLoop, if_pos hlen, merkleFoldSpec, if_neg hne, if_neg hne1]
      have hstep :
          (if l.length % 2 = 1 then pairUp (dsha256 sha) (l ++ [l.getLastD []])
           else pairUp (dsha256 sha) l)
            = pairUp (dsha256 sha) (l ++ [l.getLastD []]) := by
        by_cases hodd : l.length % 2 = 1
        · rw [if_pos hodd]
        · rw [if_neg hodd, pairUp_append_even _ _ l (by omega)]
      rw [hstep]
      have hlen2 : (pairUp (dsha256 sha) (l ++ [l.getLastD []])).length
          = (l.length + 1) / 2 := by
        rw [pairUp_length]
        simp
      apply ih
      · omega
      · have : 0 < (pairUp (dsha256 sha) (l ++ [l.getLastD []])).length := by
          omega
        exact List.ne_nil_of_length_pos this
    · have h1 : l.length = 1 := by
        have := List.length_pos.mpr hne
        omega
      rw [merkleLoop, if_neg hlen, merkleFoldSpec, if_neg hne, if_pos h1]

/-- C3: merkle_from_txids returns `dsha256("")` on the empty list, the
sole element on a singleton, and on every list agrees with the Merkle
fold described by the spec (duplicate the last element when the count is
odd, hash adjacent pairs with dsha256, repeat to a single value). -/
theorem merkle_from_txids_matches_spec (sha : Bytes → Bytes) :
    merkle_from_txids sha [] = dsha256 sha []
    ∧ (∀ x, merkle_from_txids sha [x] = x)
    ∧ (∀ txids, merkle_from_txids sha txids = merkleFoldSpec sha txids) := by
  refine ⟨rfl, fun x => rfl, fun txids => ?_⟩
  by_cases h0 : txids = []
  · rw [h0, merkleFoldSpec]
    rfl
  · by_cases h1 : txids.length = 1
    · rw [merkleFoldSpec, if_neg h0, if_pos h1]
      simp [merkle_from_txids, h0, h1]
    · rw [merkle_from_txids, if_neg h0, if_neg h1]
      exact merkleLoop_headI_eq_spec sha txids.length txids le_rfl h0

/-- C4: mining.submit selects the live state when the job id equals the
hex of the current job_counter, otherwise the history snapshot when one
exists, otherwise the live state; the block is built from the selected
state, and the call returns `True` to the miner regardless of the node
verdict. -/
theorem submit_state_selection (live : TState) (q : HistQueue)
    (job_id nonce mix : String) (verdict : Option String) (sn sm : String)
    (hn : revHex nonce = some sn) (hm : revHex mix = some sm) :
    (job_id = natToHex live.job_counter →
      handle_submit live q job_id nonce mix verdict
        = some (live.build_block sn sm, true))
    ∧ (∀ st, job_id ≠ natToHex live.job_counter →
        lookup_old_state q job_id = some st →
        handle_submit live q job_id nonce mix verdict
          = some (st.build_block sn sm, true))
    ∧ (job_id ≠ natToHex live.job_counter →
        lookup_old_state q job_id = none →
        handle_submit live q job_id nonce mix verdict
          = some (live.build_block sn sm, true))
    ∧ (∀ r hx b, handle_submit live q job_id nonce mix r = some (hx, b) →
        b = true) := by
  refine ⟨?_, ?_, ?_, ?_⟩
  · intro hid
    simp [handle_submit, hid, hn, hm]
  · intro st hid hst
    simp [handle_submit, hid, hst, hn, hm]
  · intro hid hst
    simp [handle_submit, hid, hst, hn, hm]
  · intro r hx b
    simp only [handle_submit]
    rcases revHex nonce with _ | n <;> rcases revHex mix with _ | m <;> simp

/-- Witness for C4: a concrete late submit for job id "3" while the live
job_counter is 5 uses the snapshot stored under "3", and a concrete
current submit for id "5" uses the live state; both return true. -/
theorem submit_state_selection_check :
    handle_submit { job_counter := 5, header := [1, 2], coinbase_tx := [3], externalTxs := ["aa"] }
        (["3"], [("3", { job_counter := 3, header := [9], coinbase_tx := [8], externalTxs := [] })])
        "3" "0x1234" "abcd" (some "inconclusive")
      = some ("093412cdab0108", true)
    ∧ handle_submit { job_counter := 5, header := [1, 2], coinbase_tx := [3], externalTxs := ["aa"] }
        (["3"], [("3", { job_counter := 3, header := [9], coinbase_tx := [8], externalTxs := [] })])
        "5" "0x1234" "abcd" none
      = some ("01023412cdab0203aa", true) := by
  constructor
  · have h := (submit_state_selection
      { job_counter := 5, header := [1, 2], coinbase_tx := [3], externalTxs := ["aa"] }
      (["3"], [("3", { job_counter := 3, header := [9], coinbase_tx := [8], externalTxs := [] })])
      "3" "0x1234" "abcd" (some "inconclusive") "3412" "cdab"
      (by rfl) (by rfl)).2.1
      { job_counter := 3, header := [9], coinbase_tx := [8], externalTxs := [] }
      (by decide) (by rfl)
    rw [h]
    rfl
  · have h := (submit_state_selection
      { job_counter := 5, header := [1, 2], coinbase_tx := [3], externalTxs := ["aa"] }
      (["3"], [("3", { job_counter := 3, header := [9], coinbase_tx := [8], externalTxs := [] })])
      "5" "0x1234" "abcd" none "3412" "cdab"
      (by rfl) (by rfl)).1 (by rfl)
    rw [h]
    rfl

theorem handle_authorize_decode_fail (testnet : Bool)
    (dec : String → Option Bytes) (pub : Option Bytes) (u p : String)
    (hdec : dec ((u.splitOn ".").headI) = none) :
    handle_authorize testnet dec pub u p = .exn := by
  simp [handle_authorize, hdec]

theorem handle_authorize_decode_empty (testnet : Bool)
    (dec : String → Option Bytes) (pub : Option Bytes) (u p : String)
    (hdec : dec ((u.splitOn ".").headI) = some []) :
    handle_authorize testnet dec pub u p = .exn := by
  simp [handle_authorize, hdec]

theorem handle_authorize_decoded (testnet : Bool)
    (dec : String → Option Bytes) (pub : Option Bytes) (u p : String)
    (w : Nat) (payload : Bytes)
    (hdec : dec ((u.splitOn ".").headI) = some (w :: payload)) :
    handle_authorize testnet dec pub u p
      = if w ≠ (if testnet then 109 else 50) then
          .rpcError 20 ("Invalid address " ++ (u.splitOn ".").headI)
        else .ok (if bytesFalsy pub then some payload else pub) true := by
  simp only [handle_authorize, hdec]

/-- C5: once pub_h160 holds a 20-byte value, no authorize call changes
it, whatever username is supplied; from the absent state, a successful
authorize with a version-matching decode sets it to the decoded payload. -/
theorem pub_h160_write_once (testnet : Bool) (dec : String → Option Bytes)
    (u p : String) (v : Bytes) (hv : v.length = 20) :
    (∀ pub ret, handle_authorize testnet dec (some v) u p = .ok pub ret →
      pub = some v)
    ∧ (∀ w payload, dec ((u.splitOn ".").headI) = some (w :: payload) →
        w = (if testnet then 109 else 50) →
        handle_authorize testnet dec none u p = .ok (some payload) true) := by
  have hvf : bytesFalsy (some v) = false := by
    cases v with
    | nil => simp at hv
    | cons a t => rfl
  constructor
  · intro pub ret hok
    rcases hdec : dec ((u.splitOn ".").headI) with _ | d
    · rw [handle_authorize_decode_fail testnet dec (some v) u p hdec] at hok
      simp at hok
    · cases d with
      | nil =>
        rw [handle_authorize_decode_empty testnet dec (some v) u p hdec] at hok
        simp at hok
      | cons w payload =>
        rw [handle_authorize_decoded testnet dec (some v) u p w payload hdec]
          at hok
        by_cases hw : w ≠ (if testnet then 109 else 50)
        · rw [if_pos hw] at hok
          simp at hok
        · rw [if_neg hw, hvf] at hok
          simp at hok
          exact hok.1.symm
  · intro w payload hdec hw
    rw [handle_authorize_decoded testnet dec none u p w payload hdec]
    simp [hw, bytesFalsy]

/-- Witness for C5: with a concrete decoder, an authorize against an
already-set 20-byte pub_h160 leaves it unchanged, and an authorize from
the absent state installs the decoded 20-byte payload. -/
theorem pub_h160_write_once_check :
    (∀ pub ret,
      handle_authorize false (fun _ => some (50 :: List.replicate 20 7))
        (some (List.replicate 20 3)) "MAddr.rig" "pw" = .ok pub ret →
      pub = some (List.replicate 20 3))
    ∧ handle_authorize false (fun _ => some (50 :: List.replicate 20 7))
        none "MAddr.rig" "pw" = .ok (some (List.replicate 20 7)) true :=
  ⟨(pub_h160_write_once false (fun _ => some (50 :: List.replicate 20 7))
      "MAddr.rig" "pw" (List.replicate 20 3) (by simp)).1,
   (pub_h160_write_once false (fun _ => some (50 :: List.replicate 20 7))
      "MAddr.rig" "pw" (List.replicate 20 3) (by simp)).2 50
      (List.replicate 20 7) rfl rfl⟩

theorem evictOld_eq (d : Nat) :
    ∀ (ids : List String) (m : List (String × TState)),
      evictOld d ids m
        = (ids.drop (ids.length - d),
           (ids.take (ids.length - d)).foldl (fun acc x => eraseKey x acc) m)
  | [], m => by simp [evictOld]
  | x :: rest, m => by
    by_cases hlen : d < (x :: rest).length
    · have h1 : (x :: rest).length - d = (rest.length - d) + 1 := by
        simp only [List.length_cons] at hlen ⊢
        omega
      simp only [evictOld, if_pos hlen, evictOld_eq d rest (eraseKey x m), h1,
        List.drop_succ_cons, List.take_succ_cons, List.foldl_cons]
    · have h0 : (x :: rest).length - d = 0 := by
        simp only [List.length_cons] at hlen ⊢
        omega
      simp only [evictOld, if_neg hlen, h0, List.drop_zero, List.take_zero,
        List.foldl_nil]

/-- C6: the history queue keeps at most `drop_after` entries after every
insertion (given it held at most that many before); inserting an id that
is already present is a no-op; when an insertion pushes the count above
the capacity the oldest ids are dropped from the front, and their
snapshots are deleted from the map. -/
theorem old_state_queue_bounded_fifo (q : HistQueue) (s : TState) (d : Nat) :
    ((q.2.lookup (natToHex s.job_counter)).isSome →
      add_old_state_to_queue q s d = q)
    ∧ (q.1.length ≤ d → (add_old_state_to_queue q s d).1.length ≤ d)
    ∧ ((q.2.lookup (natToHex s.job_counter)).isSome = false →
      (add_old_state_to_queue q s d).1
        = (q.1 ++ [natToHex s.job_counter]).drop (q.1.length + 1 - d)
      ∧ (add_old_state_to_queue q s d).2
        = ((q.1 ++ [natToHex s.job_counter]).take (q.1.length + 1 - d)).foldl
            (fun acc x => eraseKey x acc)
            (q.2 ++ [(natToHex s.job_counter, s)])) := by
  have hlen : (q.1 ++ [natToHex s.job_counter]).length = q.1.length + 1 := by
    simp
  have hnodup : (q.2.lookup (natToHex s.job_counter)).isSome = false →
      (add_old_state_to_queue q s d).1
        = (q.1 ++ [natToHex s.job_counter]).drop (q.1.length + 1 - d)
      ∧ (add_old_state_to_queue q s d).2
        = ((q.1 ++ [natToHex s.job_counter]).take (q.1.length + 1 - d)).foldl
            (fun acc x => eraseKey x acc)
            (q.2 ++ [(natToHex s.job_counter, s)]) := by
    intro hdup
    rw [add_old_state_to_queue]
    rw [if_neg (show ¬(q.2.lookup (natToHex s.job_counter)).isSome = true from by
      rw [hdup]
      simp)]
    rw [evictOld_eq, hlen]
    exact ⟨rfl, rfl⟩
  refine ⟨?_, ?_, hnodup⟩
  · intro hdup
    rw [add_old_state_to_queue, if_pos hdup]
  · intro hbound
    by_cases hdup : (q.2.lookup (natToHex s.job_counter)).isSome
    · rw [add_old_state_to_queue, if_pos hdup]
      exact hbound
    · have h2 := (hnodup (by rwa [Bool.not_eq_true] at hdup)).1
      rw [h2, List.length_drop, hlen]
      omega

/-- Witness for C6: with capacity 2, inserting job id "3" into a full
queue holding ids "1","2" evicts "1" (and its snapshot) keeping
["2","3"], and re-inserting id "2" afterwards is a no-op. -/
theorem old_state_queue_bounded_fifo_check :
    (add_old_state_to_queue (["1", "2"], [("1", { height := 1 }), ("2", { height := 2 })]) { job_counter := 3 } 2).1 = ["2", "3"]
    ∧ (add_old_state_to_queue (["1", "2"], [("1", { height := 1 }), ("2", { height := 2 })]) { job_counter := 3 } 2).2
      = [("2", { height := 2 }), ("3", { job_counter := 3 })]
    ∧ add_old_state_to_queue (["2", "3"], [("2", { height := 2 }), ("3", { job_counter := 3 })]) { job_counter := 2, height := 2 } 2
      = (["2", "3"], [("2", { height := 2 }), ("3", { job_counter := 3 })]) := by
  refine ⟨?_, ?_, ?_⟩
  · have h := (old_state_queue_bounded_fifo
      (["1", "2"], [("1", { height := 1 }), ("2", { height := 2 })])
      { job_counter := 3 } 2).2.2 (by rfl)
    rw [h.1]
    rfl
  · have h := (old_state_queue_bounded_fifo
      (["1", "2"], [("1", { height := 1 }), ("2", { height := 2 })])
      { job_counter := 3 } 2).2.2 (by rfl)
    rw [h.2]
    rfl
  · exact (old_state_queue_bounded_fifo
      (["2", "3"], [("2", { height := 2 }), ("3", { job_counter := 3 })])
      { job_counter := 2, height := 2 } 2).1 (by rfl)

/-- C7 counterexample: a mining.authorize call whose address part fails
Base58Check decoding (bad checksum) does not produce RPC error 20
"Invalid address <addr>"; the decoder exception propagates out of the
handler uncaught (AuthResult.exn). -/
theorem authorize_checksum_counterexample :
    handle_authorize false (fun _ => none) none "MBadAddr" "x" = .exn
    ∧ AuthResult.exn ≠ .rpcError 20 "Invalid address MBadAddr" :=
  ⟨rfl, by simp⟩

/-- C7 amended: a version-byte mismatch is reported to the miner as RPC
error 20 "Invalid address <addr>" and a valid address of the expected
version (50 mainnet, 109 testnet) returns true, but a Base58Check decode
failure (bad checksum) raises the decode exception uncaught instead of
RPC error 20. -/
theorem authorize_error_behavior (testnet : Bool)
    (dec : String → Option Bytes) (u p : String) (pub : Option Bytes) :
    (dec ((u.splitOn ".").headI) = none →
      handle_authorize testnet dec pub u p = .exn)
    ∧ (∀ w payload, dec ((u.splitOn ".").headI) = some (w :: payload) →
        ¬w = (if testnet then 109 else 50) →
        handle_authorize testnet dec pub u p
          = .rpcError 20 ("Invalid address " ++ (u.splitOn ".").headI))
    ∧ (∀ w payload, dec ((u.splitOn ".").headI) = some (w :: payload) →
        w = (if testnet then 109 else 50) →
        ∃ pubNew, handle_authorize testnet dec pub u p = .ok pubNew true) := by
  refine ⟨fun hdec => handle_authorize_decode_fail testnet dec pub u p hdec,
    ?_, ?_⟩
  · intro w payload hdec hw
    rw [handle_authorize_decoded testnet dec pub u p w payload hdec, if_pos hw]
  · intro w payload hdec hw
    rw [handle_authorize_decoded testnet dec pub u p w payload hdec,
      if_neg (not_not_intro hw)]
    exact ⟨_, rfl⟩

/-- Witness for C7 amended: concrete decoders exhibiting the three
behaviors on mainnet. -/
theorem authorize_error_behavior_check :
    handle_authorize false (fun _ => none) none "maddr.w" "pw" = .exn
    ∧ handle_authorize false (fun _ => some (0 :: List.replicate 20 1)) none
        "maddr.w" "pw"
      = .rpcError 20 ("Invalid address " ++ ("maddr.w".splitOn ".").headI)
    ∧ ∃ pubNew, handle_authorize false
        (fun _ => some (50 :: List.replicate 20 1)) none "maddr.w" "pw"
      = .ok pubNew true :=
  ⟨(authorize_error_behavior false (fun _ => none) "maddr.w" "pw" none).1 rfl,
   (authorize_error_behavior false (fun _ => some (0 :: List.replicate 20 1))
      "maddr.w" "pw" none).2.1 0 (List.replicate 20 1) rfl (by decide),
   (authorize_error_behavior false (fun _ => some (50 :: List.replicate 20 1))
      "maddr.w" "pw" none).2.2 50 (List.replicate 20 1) rfl rfl⟩

theorem hexCharVal_digitChar (d : Nat) (hd : d < 16) :
    hexCharVal (Nat.digitChar d) = some d := by
  interval_cases d <;> rfl

theorem hexToBytes_roundtrip : ∀ l : Bytes, (∀ b ∈ l, b < 256) →
    hexToBytes ((l.map byteToHex).flatten) = some l
  | [], _ => rfl
  | a :: rest, h => by
    have ha : a < 256 := h a (List.mem_cons_self a rest)
    have hrest := hexToBytes_roundtrip rest
      (fun b hb => h b (List.mem_cons_of_mem a hb))
    have h1 : hexCharVal (Nat.digitChar (a / 16)) = some (a / 16) :=
      hexCharVal_digitChar _ (by omega)
    have h2 : hexCharVal (Nat.digitChar (a % 16)) = some (a % 16) :=
      hexCharVal_digitChar _ (by omega)
    simp only [List.map_cons, List.flatten_cons, byteToHex, List.cons_append,
      List.nil_append]
    simp only [hexToBytes, h1, h2, hrest]
    have hval : 16 * (a / 16) + a % 16 = a := by omega
    rw [hval]

theorem bytesToHex_inj (l1 l2 : Bytes) (h1 : ∀ b ∈ l1, b < 256)
    (h2 : ∀ b ∈ l2, b < 256) (he : bytesToHex l1 = bytesToHex l2) :
    l1 = l2 := by
  have hd : (l1.map byteToHex).flatten = (l2.map byteToHex).flatten := by
    have := congrArg String.data he
    simpa [bytesToHex] using this
  have hr := hexToBytes_roundtrip l1 h1
  rw [hd, hexToBytes_roundtrip l2 h2] at hr
  exact (Option.some.injEq _ _).mp hr.symm

theorem beBytes_two (n : Nat) : beBytes 2 n = [n / 256 % 256, n % 256] := rfl

theorem extranonce_hex_inj (c1 c2 : Nat) (hc1 : c1 < 65536)
    (hc2 : c2 < 65536)
    (he : bytesToHex (beBytes 2 c1) = bytesToHex (beBytes 2 c2)) :
    c1 = c2 := by
  have hb := bytesToHex_inj (beBytes 2 c1) (beBytes 2 c2)
    (by rw [beBytes_two]; intro b hb; simp at hb; rcases hb with h | h <;> omega)
    (by rw [beBytes_two]; intro b hb; simp at hb; rcases hb with h | h <;> omega)
    he
  rw [beBytes_two, beBytes_two] at hb
  simp at hb
  omega

/-- C8 counterexample: a session already in all_sessions is not added to
new_sessions by mining.subscribe, and the subscribe with bits_counter at
65535 does not return `[null, extranonce_hex]` (the 2-byte encoding
raises). -/
theorem subscribe_claim_counterexample :
    ¬7 ∈ (handle_subscribe 7 [7] [] 0).new_sessions
    ∧ (handle_subscribe 7 [] [] 65535).response = none := by
  exact ⟨by decide, rfl⟩

/-- C8 amended: every mining.subscribe call increments bits_counter by
one; it adds the calling session to new_sessions unless the session is
already in all_sessions (then the session sets are unchanged); whenever
the incremented counter fits two bytes the call returns
[null, extranonce_hex] with the counter as 2 big-endian bytes in hex, the
first subscriber receiving "0001"; distinct counters give distinct
extranonces. -/
theorem subscribe_behavior (sid : Nat) (allS newS : List Nat) (c : Nat) :
    (handle_subscribe sid allS newS c).bits_counter = c + 1
    ∧ (¬sid ∈ allS → sid ∈ (handle_subscribe sid allS newS c).new_sessions)
    ∧ (sid ∈ allS → (handle_subscribe sid allS newS c).new_sessions = newS)
    ∧ (c + 1 ≤ 65535 →
        (handle_subscribe sid allS newS c).response
          = some (none, bytesToHex (beBytes 2 (c + 1))))
    ∧ (c = 0 →
        (handle_subscribe sid allS newS c).response = some (none, "0001"))
    ∧ (∀ sid2 allS2 newS2 c2, c + 1 ≤ 65535 → c2 + 1 ≤ 65535 → ¬c = c2 →
        ¬(handle_subscribe sid allS newS c).response
          = (handle_subscribe sid2 allS2 newS2 c2).response) := by
  have hpow : (256 : Nat) ^ 2 = 65536 := by norm_num
  have resp : ∀ (k : Nat), k + 1 ≤ 65535 → ∀ (sx : Nat) (ax nx : List Nat),
      (handle_subscribe sx ax nx k).response
        = some (none, bytesToHex (beBytes 2 (k + 1))) := by
    intro k hk sx ax nx
    have ht : to_bytes_be 2 (k + 1) = some (beBytes 2 (k + 1)) := by
      rw [to_bytes_be, if_pos (by omega)]
    simp [handle_subscribe, ht]
  refine ⟨rfl, ?_, ?_, fun hle => resp c hle sid allS newS, ?_, ?_⟩
  · intro hni
    simp only [handle_subscribe, if_neg hni, List.insert]
    by_cases hmem : sid ∈ newS
    · simp [hmem]
    · simp [hmem]
  · intro hin
    simp [handle_subscribe, hin]
  · intro hc
    subst hc
    exact resp 0 (by omega) sid allS newS
  · intro sid2 allS2 newS2 c2 h1 h2 hne heq
    rw [resp c h1 sid allS newS, resp c2 h2 sid2 allS2 newS2] at heq
    simp only [Option.some.injEq, Prod.mk.injEq, true_and] at heq
    exact hne (by
      have := extranonce_hex_inj (c + 1) (c2 + 1) (by omega) (by omega) heq
      omega)

/-- Witness for C8 amended: the first subscriber on a fresh state gets
counter 1, is added to new_sessions, receives "0001", and its extranonce
differs from the second subscriber's. -/
theorem subscribe_behavior_check :
    (handle_subscribe 1 [] [] 0).bits_counter = 1
    ∧ 1 ∈ (handle_subscribe 1 [] [] 0).new_sessions
    ∧ (handle_subscribe 1 [] [] 0).response = some (none, "0001")
    ∧ ¬(handle_subscribe 1 [] [] 0).response
        = (handle_subscribe 2 [] [] 1).response :=
  ⟨(subscribe_behavior 1 [] [] 0).1,
   (subscribe_behavior 1 [] [] 0).2.1 (by decide),
   (subscribe_behavior 1 [] [] 0).2.2.2.2.1 rfl,
   (subscribe_behavior 1 [] [] 0).2.2.2.2.2 2 [] [] 1 (by omega) (by omega)
     (by omega)⟩

/-- C10: mining.subscribe fails without returning an extranonce whenever
bits_counter is at least 65535 before the call (`to_bytes(2, 'big')`
overflows on the 65536th subscribe), and returns `[null, hex]` whenever
the incremented counter is at most 65535. -/
theorem subscribe_counter_overflow (sid : Nat) (allS newS : List Nat)
    (c : Nat) :
    (65535 ≤ c → (handle_subscribe sid allS newS c).response = none)
    ∧ (c + 1 ≤ 65535 →
        ∃ hx, (handle_subscribe sid allS newS c).response = some (none, hx)) := by
  have hpow : (256 : Nat) ^ 2 = 65536 := by norm_num
  constructor
  · intro hge
    have ht : to_bytes_be 2 (c + 1) = none := by
      rw [to_bytes_be, if_neg (by omega)]
    simp [handle_subscribe, ht]
  · intro hle
    have ht : to_bytes_be 2 (c + 1) = some (beBytes 2 (c + 1)) := by
      rw [to_bytes_be, if_pos (by omega)]
    exact ⟨bytesToHex (beBytes 2 (c + 1)), by simp [handle_subscribe, ht]⟩

/-- Witness for C10: the subscribe with bits_counter 65535 yields no
extranonce, while one with bits_counter 4 succeeds. -/
theorem subscribe_counter_overflow_check :
    (handle_subscribe 3 [] [] 65535).response = none
    ∧ ∃ hx, (handle_subscribe 3 [] [] 4).response = some (none, hx) :=
  ⟨(subscribe_counter_overflow 3 [] [] 65535).1 (by omega),
   (subscribe_counter_overflow 3 [] [] 4).2 (by omega)⟩

end MeowcoinProxy
